import Mathlib

/-!
Verification of the form-validation engine of
danpoynor/conference-registration-form-page (src/js/script.js).

The engine is the `FormValidator` class: a registry of validators
(`addValidator`), full-form evaluation (`validateForm`) and single-field
evaluation (`validateField`).  A rule is `{condition?, method, message}`;
`condition` is a thunk reading global document state, `method` reads the
bound field's live value.  We embed this with explicit state passing:
`σ` is the live document/field state, `φ` the type of field references
(`this.form.elements[id]`), so a condition is `σ → Bool` and a method is
`φ → σ → Bool` (the field reference plus the live state it is read in).

Evaluation is instrumented with the indices of the rules whose `method`
was actually invoked (`methodCalls`), so that short-circuiting and
condition-gating ("the predicate is never evaluated") are stated
faithfully.  `validateField`'s DOM side effects (console.warn,
removeHint, showHint, showValid) are recorded as an action trace.
-/

namespace ConfReg

/-- A validation rule, from the rule objects passed to `addValidator`
(src/js/script.js):  `condition` is the optional gating thunk, `method`
the predicate run against the field, `message` the failure message. -/
structure Rule (σ : Type) (φ : Type) where
  condition : Option (σ → Bool)
  method : φ → σ → Bool
  message : String

/-- A validator object as pushed by `addValidator` (script.js lines
131-140): `{fieldId: element, rules: rules, field: this.form.elements[element]}`. -/
structure Validator (σ : Type) (φ : Type) where
  fieldId : String
  rules : List (Rule σ φ)
  field : φ

/-- An error record as pushed into `this.errors` (script.js lines 166-169):
`{fieldId: element.fieldId, message: element.rules[rulesIndex].message}`. -/
structure ErrorRecord where
  fieldId : String
  message : String
deriving DecidableEq

/-- The mutable object state of a `FormValidator` instance that the engine
reads and writes: `this.validators` and `this.errors`. -/
structure FormValidatorState (σ : Type) (φ : Type) where
  validators : List (Validator σ φ)
  errors : List ErrorRecord

/-- Line 159: `element.rules[rulesIndex].condition && !element.rules[rulesIndex].condition()`
— a rule is skipped when it has a condition and that condition returns false. -/
def Rule.skipped {σ φ : Type} (r : Rule σ φ) (st : σ) : Bool :=
  match r.condition with
  | some c => !(c st)
  | none => false

/-- The observable outcome of running one validator's rule loop in
`validateForm`: the (at most one, first-failure) error record pushed, and
the indices of the rules whose `method` was invoked, in call order. -/
structure FieldOutcome where
  error : Option ErrorRecord
  methodCalls : List Nat
deriving DecidableEq

/-- The inner rule loop of `validateForm` (script.js lines 157-178),
instrumented with invoked-method indices.  `i` is the index of the head
rule.  A rule whose condition is unmet is skipped (`continue`); a failing
method pushes `{fieldId, message}` and breaks; a passing method continues
(the `showValid` call there touches only presentation state). -/
def evalRulesFrom {σ φ : Type} (st : σ) (field : φ) (fieldId : String) :
    Nat → List (Rule σ φ) → FieldOutcome
  | _, [] => { error := none, methodCalls := [] }
  | i, r :: rs =>
    if r.skipped st then
      evalRulesFrom st field fieldId (i + 1) rs
    else if r.method field st then
      { error := (evalRulesFrom st field fieldId (i + 1) rs).error,
        methodCalls := i :: (evalRulesFrom st field fieldId (i + 1) rs).methodCalls }
    else
      { error := some { fieldId := fieldId, message := r.message }, methodCalls := [i] }

/-- Running one validator's rule loop from its first rule. -/
def evalRules {σ φ : Type} (st : σ) (v : Validator σ φ) : FieldOutcome :=
  evalRulesFrom st v.field v.fieldId 0 v.rules

/-- The error list `validateForm` builds (script.js lines 152-179): for each
validator in registration order, at most one (first-failure) error record. -/
def formErrors {σ φ : Type} (st : σ) : List (Validator σ φ) → List ErrorRecord
  | [] => []
  | v :: vs =>
    match (evalRules st v).error with
    | some e => e :: formErrors st vs
    | none => formErrors st vs

/-- `validateForm` (script.js lines 142-182): resets `this.errors` to a
fresh list, runs every validator, and returns `this.errors.length === 0`. -/
def validateForm {σ φ : Type} (fv : FormValidatorState σ φ) (st : σ) :
    FormValidatorState σ φ × Bool :=
  ({ fv with errors := formErrors st fv.validators },
    (formErrors st fv.validators).length == 0)

/-- `addValidator` (script.js lines 131-140): pushes a validator object onto
`this.validators`; `form` is the element lookup `this.form.elements[·]`. -/
def addValidator {σ φ : Type} (fv : FormValidatorState σ φ) (form : String → φ)
    (element : String) (rules : List (Rule σ φ)) : FormValidatorState σ φ :=
  { fv with validators :=
      fv.validators ++ [{ fieldId := element, rules := rules, field := form element }] }

/-- Line 186: `this.validators.find(validator => validator.fieldId === fieldId)`. -/
def findValidator {σ φ : Type} (fv : FormValidatorState σ φ) (fieldId : String) :
    Option (Validator σ φ) :=
  fv.validators.find? (fun v => v.fieldId == fieldId)

/-- The observable actions of `validateField` (script.js lines 184-214):
the console warning for an unknown field, and the presentation calls
`removeHint`, `showHint` (with the shown rule's message) and `showValid`
(tagged here with the field's identifier). -/
inductive FieldAction where
  | warnNotFound (fieldId : String)
  | removeHint (fieldId : String)
  | showHint (fieldId : String) (message : String)
  | showValid (fieldId : String)
deriving DecidableEq

/-- The inner rule loop of `validateField` (script.js lines 191-212),
returning the emitted action trace and the invoked-method indices.
On failure: `removeHint` then `showHint`, then break.  On success:
`showValid` then `removeHint`, then continue. -/
def validateFieldRulesFrom {σ φ : Type} (st : σ) (field : φ) (fieldId : String) :
    Nat → List (Rule σ φ) → List FieldAction × List Nat
  | _, [] => ([], [])
  | i, r :: rs =>
    if r.skipped st then
      validateFieldRulesFrom st field fieldId (i + 1) rs
    else if r.method field st then
      (FieldAction.showValid fieldId :: FieldAction.removeHint fieldId ::
          (validateFieldRulesFrom st field fieldId (i + 1) rs).1,
        i :: (validateFieldRulesFrom st field fieldId (i + 1) rs).2)
    else
      ([FieldAction.removeHint fieldId, FieldAction.showHint fieldId r.message], [i])

/-- `validateField` (script.js lines 184-214): looks up the FIRST validator
whose `fieldId` matches; if none, only `console.warn` happens; otherwise the
single-field rule loop runs. -/
def validateField {σ φ : Type} (fv : FormValidatorState σ φ) (st : σ)
    (fieldId : String) : List FieldAction × List Nat :=
  match findValidator fv fieldId with
  | none => ([FieldAction.warnNotFound fieldId], [])
  | some v => validateFieldRulesFrom st v.field fieldId 0 v.rules

/-- The per-field hint state of the page: the list of `(fieldId, message)`
hints currently shown.  `removeHint fieldId` removes every hint of that
field (script.js lines 24-28); `showHint` appends one; the warning and
`showValid` touch no hint. -/
def applyAction (hints : List (String × String)) : FieldAction → List (String × String)
  | FieldAction.warnNotFound _ => hints
  | FieldAction.removeHint fid => hints.filter (fun h => !(h.1 == fid))
  | FieldAction.showHint fid msg => hints ++ [(fid, msg)]
  | FieldAction.showValid _ => hints

/-- Applying a whole action trace to the hint state, in order. -/
def applyActions (hints : List (String × String)) (acts : List FieldAction) :
    List (String × String) :=
  acts.foldl applyAction hints

/-! ### JavaScript string primitives used by the rule data

The concrete rule set (`addRegFormValidationRules`, script.js lines
319-448) uses `value.length`, `indexOf`, `lastIndexOf`, `isNaN(value)`
and a few regular expressions on ASCII field values.  We embed each as an
executable function on Lean strings. -/

/-- `value.indexOf(c)`: index of the first occurrence, `-1` when absent. -/
def jsIndexOf (s : String) (c : Char) : Int :=
  match s.data.findIdx? (fun a => a == c) with
  | some i => (i : Int)
  | none => -1

/-- `value.lastIndexOf(c)`: index of the last occurrence, `-1` when absent. -/
def jsLastIndexOf (s : String) (c : Char) : Int :=
  match s.data.reverse.findIdx? (fun a => a == c) with
  | some i => ((s.data.length - 1 - i : Nat) : Int)
  | none => -1

/-- ASCII whitespace as matched by the regex class `\s` and trimmed by JS
number conversion (the rule data only ever meets ASCII values). -/
def jsIsSpaceChar (c : Char) : Bool :=
  c == ' ' || c == '\t' || c == '\n' || c == '\r' || c == '\x0b' || c == '\x0c'

/-- An ASCII letter, as matched by `[a-z]` under the `i` flag or `[a-zA-Z]`. -/
def isAsciiLetter (c : Char) : Bool :=
  ('a' ≤ c && c ≤ 'z') || ('A' ≤ c && c ≤ 'Z')

/-- An ASCII digit, the regex class `\d`. -/
def jsIsDigit (c : Char) : Bool :=
  '0' ≤ c && c ≤ '9'

/-- A hexadecimal digit. -/
def jsIsHexDigit (c : Char) : Bool :=
  jsIsDigit c || ('a' ≤ c && c ≤ 'f') || ('A' ≤ c && c ≤ 'F')

/-- One character of the name regex class `[a-zA-Z\-.'\s]`: letters, hyphen,
period, apostrophe, whitespace. -/
def nameClassChar (c : Char) : Bool :=
  isAsciiLetter c || c == '-' || c == '.' || c == '\x27' || jsIsSpaceChar c

/-- The name rule regex `/^[a-zA-Z\-.'\s]+$/.test(value)`: a nonempty string
of characters from the class. -/
def nameRegexTest (s : String) : Bool :=
  !s.data.isEmpty && s.data.all nameClassChar

/-- The email rule regex `/^[^@]+@[^@.]+\.[a-z]+$/i.test(value)`.  The regex
is deterministic: `[^@]+` must stop at the first `@`, `[^@.]+` at the first
`.` after it, and `[a-z]+$` (case-insensitive) takes the rest. -/
def emailRegexTest (s : String) : Bool :=
  let l := s.data
  let pre := l.takeWhile (fun c => !(c == '@'))
  match l.drop pre.length with
  | '@' :: rest =>
    let mid := rest.takeWhile (fun c => !(c == '@') && !(c == '.'))
    (match rest.drop mid.length with
     | '.' :: tail => !pre.isEmpty && !mid.isEmpty && !tail.isEmpty && tail.all isAsciiLetter
     | _ => false)
  | _ => false

/-- Decimal digits, at least one. -/
def decDigitsTest (l : List Char) : Bool :=
  !l.isEmpty && l.all jsIsDigit

/-- Decimal digits with an optional leading sign. -/
def signedDecDigitsTest : List Char → Bool
  | '+' :: t => decDigitsTest t
  | '-' :: t => decDigitsTest t
  | t => decDigitsTest t

/-- An optional exponent part `[eE][+-]?digits` at the end of a numeric
literal; the empty remainder means no exponent. -/
def expPartTest : List Char → Bool
  | [] => true
  | 'e' :: t => signedDecDigitsTest t
  | 'E' :: t => signedDecDigitsTest t
  | _ => false

/-- An unsigned decimal literal: `digits [. digits] [exp]` or `. digits [exp]`. -/
def decimalLiteralTest (l : List Char) : Bool :=
  match l with
  | '.' :: t =>
    !(t.takeWhile jsIsDigit).isEmpty && expPartTest (t.drop (t.takeWhile jsIsDigit).length)
  | _ =>
    if (l.takeWhile jsIsDigit).isEmpty then false
    else
      match l.drop (l.takeWhile jsIsDigit).length with
      | '.' :: t => expPartTest (t.drop (t.takeWhile jsIsDigit).length)
      | rest => expPartTest rest

/-- The characters of `"Infinity"`. -/
def jsInfinityChars : List Char :=
  ['I', 'n', 'f', 'i', 'n', 'i', 't', 'y']

/-- A signed decimal or Infinity tail. -/
def signedNumericTail (t : List Char) : Bool :=
  t == jsInfinityChars || decimalLiteralTest t

/-- A JS `StrNumericLiteral`: hex / binary / octal integer (no sign), or a
signed decimal / `Infinity`. -/
def strNumericLiteralTest (l : List Char) : Bool :=
  match l with
  | '0' :: 'x' :: t => !t.isEmpty && t.all jsIsHexDigit
  | '0' :: 'X' :: t => !t.isEmpty && t.all jsIsHexDigit
  | '0' :: 'b' :: t => !t.isEmpty && t.all (fun c => c == '0' || c == '1')
  | '0' :: 'B' :: t => !t.isEmpty && t.all (fun c => c == '0' || c == '1')
  | '0' :: 'o' :: t => !t.isEmpty && t.all (fun c => '0' ≤ c && c ≤ '7')
  | '0' :: 'O' :: t => !t.isEmpty && t.all (fun c => '0' ≤ c && c ≤ '7')
  | '+' :: t => signedNumericTail t
  | '-' :: t => signedNumericTail t
  | t => signedNumericTail t

/-- Whitespace-trim on both ends, as JS string-to-number conversion does. -/
def jsTrim (l : List Char) : List Char :=
  ((l.dropWhile jsIsSpaceChar).reverse.dropWhile jsIsSpaceChar).reverse

/-- `!isNaN(value)` for a string value: `Number(value)` is not NaN, i.e. the
trimmed value is empty (converts to 0) or is a numeric literal. -/
def jsNotNaN (s : String) : Bool :=
  (jsTrim s.data).isEmpty || strNumericLiteralTest (jsTrim s.data)

/-- The credit-card number regex `/^\d{13,16}$/.test(value)`. -/
def ccNumRegexTest (s : String) : Bool :=
  s.data.all jsIsDigit && decide (13 ≤ s.data.length ∧ s.data.length ≤ 16)

/-! ### The registration form's rule data (`addRegFormValidationRules`)

The live document state a pass reads: each text field's current `value`,
the number of checked activity checkboxes, and the payment `<select>`'s
value.  A field reference `φ` is the element's identifier (what
`this.form.elements[id]` resolves); a method reads its live value through
`fieldValue`. -/

/-- The live form state read by conditions and methods during one pass. -/
structure RegFormState where
  name : String
  email : String
  activitiesChecked : Nat
  payment : String
  ccNum : String
  zip : String
  cvv : String
deriving DecidableEq

/-- `this.form.elements[element]`: the registration form resolves an
identifier to the field reference, embedded as the identifier itself. -/
def regFormElements : String → String :=
  fun id => id

/-- The live `value` of a referenced field in the current state. -/
def fieldValue (st : RegFormState) : String → String
  | "name" => st.name
  | "email" => st.email
  | "cc-num" => st.ccNum
  | "zip" => st.zip
  | "cvv" => st.cvv
  | _ => ""

/-- The condition shared by the cc-num, zip and cvv rules:
`document.getElementById('payment').value === 'credit-card'`. -/
def creditCardSelected (st : RegFormState) : Bool :=
  st.payment == "credit-card"

/-- The `name` field's rules (script.js lines 321-336). -/
def nameRules : List (Rule RegFormState String) :=
  [ { condition := none,
      method := fun f st => decide ((fieldValue st f).length > 0),
      message := "Name is required" },
    { condition := none,
      method := fun f st => decide ((fieldValue st f).length ≥ 3),
      message := "Name must be at least 3 characters long" },
    { condition := none,
      method := fun f st => nameRegexTest (fieldValue st f),
      message := "Name should only contain letters, spaces, hyphens, periods, and apostrophes" } ]

/-- The `email` field's rules (script.js lines 339-371). -/
def emailRules : List (Rule RegFormState String) :=
  [ { condition := none,
      method := fun f st => decide ((fieldValue st f).length > 0),
      message := "Email is required" },
    { condition := none,
      method := fun f st => decide (jsIndexOf (fieldValue st f) '@' > -1),
      message := "Enter the 'at' symbol in the email address." },
    { condition := none,
      method := fun f st => decide (jsIndexOf (fieldValue st f) '@' ≠ 0),
      message := "The 'at' symbol should not appear at the beginning." },
    { condition := none,
      method := fun f st => decide (jsIndexOf (fieldValue st f) '.' > -1),
      message := "Enter the 'dot' symbol in the email address." },
    { condition := none,
      method := fun f st => decide (jsIndexOf (fieldValue st f) '@' < jsIndexOf (fieldValue st f) '.'),
      message := "The 'at' symbol must be before the 'dot' symbol." },
    { condition := none,
      method := fun f st => decide (jsIndexOf (fieldValue st f) '@' = jsLastIndexOf (fieldValue st f) '@'),
      message := "The 'at' symbol should only appear once." },
    { condition := none,
      method := fun f st => emailRegexTest (fieldValue st f),
      message := "Email address must be formatted correctly" } ]

/-- The `activities` fieldset's rule (script.js lines 374-383): at least one
checked checkbox inside the fieldset. -/
def activitiesRules : List (Rule RegFormState String) :=
  [ { condition := none,
      method := fun _ st => decide (st.activitiesChecked > 0),
      message := "Choose at least one activity" } ]

/-- The `cc-num` field's rules (script.js lines 387-405), each gated on the
credit-card payment type. -/
def ccNumRules : List (Rule RegFormState String) :=
  [ { condition := some creditCardSelected,
      method := fun f st => decide ((fieldValue st f).length > 0),
      message := "Credit card number is required" },
    { condition := some creditCardSelected,
      method := fun f st => jsNotNaN (fieldValue st f),
      message := "Credit card number must be a number" },
    { condition := some creditCardSelected,
      method := fun f st => ccNumRegexTest (fieldValue st f),
      message := "Credit card number must be between 13 - 16 digits" } ]

/-- The `zip` field's rules (script.js lines 408-426). -/
def zipRules : List (Rule RegFormState String) :=
  [ { condition := some creditCardSelected,
      method := fun f st => decide ((fieldValue st f).length > 0),
      message := "Zip code is required" },
    { condition := some creditCardSelected,
      method := fun f st => jsNotNaN (fieldValue st f),
      message := "Zip code must be a number" },
    { condition := some creditCardSelected,
      method := fun f st => decide ((fieldValue st f).length = 5),
      message := "Zip code must be 5 digits" } ]

/-- The `cvv` field's rules (script.js lines 429-447). -/
def cvvRules : List (Rule RegFormState String) :=
  [ { condition := some creditCardSelected,
      method := fun f st => decide ((fieldValue st f).length > 0),
      message := "CVV is required" },
    { condition := some creditCardSelected,
      method := fun f st => jsNotNaN (fieldValue st f),
      message := "CVV must be a number" },
    { condition := some creditCardSelected,
      method := fun f st => decide ((fieldValue st f).length = 3),
      message := "CVV must be 3 digits" } ]

/-- `addRegFormValidationRules` (script.js lines 319-448): registers the six
validators in order. -/
def addRegFormValidationRules (fv : FormValidatorState RegFormState String) :
    FormValidatorState RegFormState String :=
  addValidator
    (addValidator
      (addValidator
        (addValidator
          (addValidator
            (addValidator fv regFormElements "name" nameRules)
            regFormElements "email" emailRules)
          regFormElements "activities" activitiesRules)
        regFormElements "cc-num" ccNumRules)
      regFormElements "zip" zipRules)
    regFormElements "cvv" cvvRules

/-- The registration form's validator, as wired at page setup: a fresh
`FormValidator` instance with the rule data registered. -/
def regFormValidator : FormValidatorState RegFormState String :=
  addRegFormValidationRules { validators := [], errors := [] }

/-- A live form state exercising Scenario C: email `"a.b@@c.com"`, every
other field in a passing (or condition-skipped) state. -/
def emailTestState : RegFormState :=
  { name := "Dan", email := "a.b@@c.com", activitiesChecked := 1,
    payment := "paypal", ccNum := "", zip := "", cvv := "" }

/-- A minimal always-failing rule over trivial state, for concrete
instantiations. -/
def failRule (m : String) : Rule Unit Unit :=
  { condition := none, method := fun _ _ => false, message := m }

/-- A one-rule validator that always fails, for concrete instantiations. -/
def failValidator (id m : String) : Validator Unit Unit :=
  { fieldId := id, rules := [failRule m], field := () }

/-- A minimal always-passing rule with a string field reference, for
concrete instantiations. -/
def demoRule : Rule Unit String :=
  { condition := none, method := fun _ _ => true, message := "demo" }

/-! ### General lemmas about the evaluation loop -/

/-- Every error record the rule loop produces carries the validator's
field identifier. -/
theorem evalRulesFrom_error_fieldId {σ φ : Type} (st : σ) (f : φ) (fid : String) :
    ∀ (rs : List (Rule σ φ)) (i : Nat) (e : ErrorRecord),
      (evalRulesFrom st f fid i rs).error = some e → e.fieldId = fid := by
  intro rs
  induction rs with
  | nil => intro i e h; simp [evalRulesFrom] at h
  | cons r rs ih =>
    intro i e h
    by_cases hs : r.skipped st = true
    · simp only [evalRulesFrom, if_pos hs] at h
      exact ih (i + 1) e h
    · by_cases hm : r.method f st = true
      · simp only [evalRulesFrom, if_neg hs, if_pos hm] at h
        exact ih (i + 1) e h
      · simp only [evalRulesFrom, if_neg hs, if_neg hm, Option.some.injEq] at h
        rw [← h]

/-- The error component of the rule loop does not depend on the starting
index (the index only feeds the instrumentation). -/
theorem evalRulesFrom_error_index {σ φ : Type} (st : σ) (f : φ) (fid : String) :
    ∀ (rs : List (Rule σ φ)) (i j : Nat),
      (evalRulesFrom st f fid i rs).error = (evalRulesFrom st f fid j rs).error := by
  intro rs
  induction rs with
  | nil => intro i j; rfl
  | cons r rs ih =>
    intro i j
    by_cases hs : r.skipped st = true
    · simp only [evalRulesFrom, if_pos hs]
      exact ih (i + 1) (j + 1)
    · by_cases hm : r.method f st = true
      · simp only [evalRulesFrom, if_neg hs, if_pos hm]
        exact ih (i + 1) (j + 1)
      · simp only [evalRulesFrom, if_neg hs, if_neg hm]

/-- Every index in `methodCalls` points at a rule of the list that was not
condition-skipped in this pass. -/
theorem evalRulesFrom_methodCalls_not_skipped {σ φ : Type} (st : σ) (f : φ) (fid : String) :
    ∀ (rs : List (Rule σ φ)) (i j : Nat), j ∈ (evalRulesFrom st f fid i rs).methodCalls →
      ∃ k, ∃ hk : k < rs.length, j = i + k ∧ (rs.get ⟨k, hk⟩).skipped st = false := by
  intro rs
  induction rs with
  | nil => intro i j h; simp [evalRulesFrom] at h
  | cons r rs ih =>
    intro i j h
    by_cases hs : r.skipped st = true
    · simp only [evalRulesFrom, if_pos hs] at h
      obtain ⟨k, hk, hj, hr⟩ := ih (i + 1) j h
      exact ⟨k + 1, Nat.succ_lt_succ hk, by omega, hr⟩
    · by_cases hm : r.method f st = true
      · simp only [evalRulesFrom, if_neg hs, if_pos hm, List.mem_cons] at h
        rcases h with rfl | h
        · exact ⟨0, Nat.succ_pos _, by omega, by simpa using Bool.eq_false_iff.mpr hs⟩
        · obtain ⟨k, hk, hj, hr⟩ := ih (i + 1) j h
          exact ⟨k + 1, Nat.succ_lt_succ hk, by omega, hr⟩
      · simp only [evalRulesFrom, if_neg hs, if_neg hm, List.mem_singleton] at h
        subst h
        exact ⟨0, Nat.succ_pos _, by omega, by simpa using Bool.eq_false_iff.mpr hs⟩

/-- A rule whose `skipped` is false has no condition, or its condition
returned true in this pass. -/
theorem skipped_false_condition {σ φ : Type} (r : Rule σ φ) (st : σ)
    (h : r.skipped st = false) : ∀ c, r.condition = some c → c st = true := by
  intro c hc
  simpa [Rule.skipped, hc] using h

/-- Dropping a condition-skipped rule from anywhere in the list does not
change the error the loop produces. -/
theorem evalRulesFrom_error_drop_skipped {σ φ : Type} (st : σ) (f : φ) (fid : String)
    (r : Rule σ φ) (hr : r.skipped st = true) :
    ∀ (l₁ l₂ : List (Rule σ φ)) (i : Nat),
      (evalRulesFrom st f fid i (l₁ ++ r :: l₂)).error
        = (evalRulesFrom st f fid i (l₁ ++ l₂)).error := by
  intro l₁
  induction l₁ with
  | nil =>
    intro l₂ i
    simp only [List.nil_append, evalRulesFrom, if_pos hr]
    exact evalRulesFrom_error_index st f fid l₂ (i + 1) i
  | cons p l₁ ih =>
    intro l₂ i
    by_cases hp : p.skipped st = true
    · simp only [List.cons_append, evalRulesFrom, if_pos hp]
      exact ih l₂ (i + 1)
    · by_cases hm : p.method f st = true
      · simp only [List.cons_append, evalRulesFrom, if_neg hp, if_pos hm]
        exact ih l₂ (i + 1)
      · simp only [List.cons_append, evalRulesFrom, if_neg hp, if_neg hm]

/-- First-failure characterisation: when every rule before `r` is either
skipped or passing, `r` is not skipped and `r`'s method fails, the loop
yields exactly `r`'s error and invokes no method past `r`'s index. -/
theorem evalRulesFrom_firstFail {σ φ : Type} (st : σ) (f : φ) (fid : String)
    (pre : List (Rule σ φ)) (r : Rule σ φ) (post : List (Rule σ φ))
    (hpre : ∀ p ∈ pre, p.skipped st = true ∨ p.method f st = true)
    (hskip : r.skipped st = false) (hfail : r.method f st = false) :
    ∀ i, (evalRulesFrom st f fid i (pre ++ r :: post)).error
          = some { fieldId := fid, message := r.message }
      ∧ ∀ j ∈ (evalRulesFrom st f fid i (pre ++ r :: post)).methodCalls,
          j ≤ i + pre.length := by
  induction pre with
  | nil =>
    intro i
    constructor
    · simp [evalRulesFrom, hskip, hfail]
    · intro j hj
      simp [evalRulesFrom, hskip, hfail] at hj
      omega
  | cons p pre ih =>
    intro i
    have hrest : ∀ q ∈ pre, q.skipped st = true ∨ q.method f st = true :=
      fun q hq => hpre q (List.mem_cons_of_mem p hq)
    have h := ih hrest (i + 1)
    by_cases hps : p.skipped st = true
    · constructor
      · simpa only [List.cons_append, evalRulesFrom, if_pos hps] using h.1
      · intro j hj
        simp only [List.cons_append, evalRulesFrom, if_pos hps] at hj
        have := h.2 j hj
        simp only [List.length_cons]
        omega
    · have hpm : p.method f st = true := by
        rcases hpre p (List.mem_cons_self p pre) with hx | hx
        · exact absurd hx hps
        · exact hx
      constructor
      · simpa only [List.cons_append, evalRulesFrom, if_neg hps, if_pos hpm] using h.1
      · intro j hj
        simp only [List.cons_append, evalRulesFrom, if_neg hps, if_pos hpm,
          List.mem_cons] at hj
        simp only [List.length_cons]
        rcases hj with rfl | hj
        · omega
        · have := h.2 j hj
          omega

/-- Running the whole list with every rule skipped does nothing: no error,
no method invoked. -/
theorem evalRulesFrom_all_skipped {σ φ : Type} (st : σ) (f : φ) (fid : String) :
    ∀ (rs : List (Rule σ φ)) (i : Nat), (∀ r ∈ rs, r.skipped st = true) →
      evalRulesFrom st f fid i rs = { error := none, methodCalls := [] } := by
  intro rs
  induction rs with
  | nil => intro i _; rfl
  | cons r rs ih =>
    intro i h
    have hr := h r (List.mem_cons_self r rs)
    simp only [evalRulesFrom, if_pos hr]
    exact ih (i + 1) (fun q hq => h q (List.mem_cons_of_mem r hq))

/-- `formErrors` on a cons: the head validator's (at most one) error, then
the rest. -/
theorem formErrors_cons {σ φ : Type} (st : σ) (v : Validator σ φ)
    (l : List (Validator σ φ)) :
    formErrors st (v :: l) = (evalRules st v).error.toList ++ formErrors st l := by
  cases he : (evalRules st v).error <;> simp [formErrors, he]

/-- `formErrors` splits over append: every validator entry is evaluated, in
registration order. -/
theorem formErrors_append {σ φ : Type} (st : σ) (l₁ l₂ : List (Validator σ φ)) :
    formErrors st (l₁ ++ l₂) = formErrors st l₁ ++ formErrors st l₂ := by
  induction l₁ with
  | nil => simp [formErrors]
  | cons v l ih =>
    rw [List.cons_append, formErrors_cons, formErrors_cons, ih, List.append_assoc]

/-- Validators whose identifier differs from `fid` contribute no error with
identifier `fid`. -/
theorem formErrors_filter_of_ne {σ φ : Type} (st : σ) (fid : String) :
    ∀ l : List (Validator σ φ), (∀ w ∈ l, w.fieldId ≠ fid) →
      (formErrors st l).filter (fun e => e.fieldId == fid) = [] := by
  intro l
  induction l with
  | nil => intro _; rfl
  | cons v l ih =>
    intro h
    have h1 := ih (fun w hw => h w (List.mem_cons_of_mem v hw))
    rw [formErrors_cons, List.filter_append, h1, List.append_nil]
    cases he : (evalRules st v).error with
    | none => rfl
    | some e =>
      have he2 : e.fieldId = v.fieldId :=
        evalRulesFrom_error_fieldId st v.field v.fieldId v.rules 0 e he
      have hne : (e.fieldId == fid) = false := by
        refine beq_eq_false_iff_ne.mpr ?_
        rw [he2]
        exact h v (List.mem_cons_self v l)
      simp [List.filter, hne]

/-- The field identifiers of the produced errors are a subsequence of the
validators' identifiers in registration order. -/
theorem formErrors_map_fieldId_sublist {σ φ : Type} (st : σ) :
    ∀ l : List (Validator σ φ),
      List.Sublist ((formErrors st l).map (fun e => e.fieldId))
        (l.map (fun v => v.fieldId)) := by
  intro l
  induction l with
  | nil => simp [formErrors]
  | cons v l ih =>
    cases he : (evalRules st v).error with
    | none =>
      simp only [formErrors, he, List.map_cons]
      exact List.Sublist.cons _ ih
    | some e =>
      have he2 : e.fieldId = v.fieldId :=
        evalRulesFrom_error_fieldId st v.field v.fieldId v.rules 0 e he
      simp only [formErrors, he, List.map_cons, he2]
      exact List.Sublist.cons₂ _ ih

/-- `find?` over validators: with no match in the prefix, the first
matching validator is returned. -/
theorem find?_validators_first {σ φ : Type} (id : String) :
    ∀ (l : List (Validator σ φ)) (v : Validator σ φ) (rest : List (Validator σ φ)),
      (∀ w ∈ l, w.fieldId ≠ id) → v.fieldId = id →
        (l ++ v :: rest).find? (fun w => w.fieldId == id) = some v := by
  intro l
  induction l with
  | nil =>
    intro v rest _ hv
    simp [List.find?_cons_of_pos, hv]
  | cons w l ih =>
    intro v rest h hv
    have hw : (w.fieldId == id) = false :=
      beq_eq_false_iff_ne.mpr (h w (List.mem_cons_self w l))
    rw [List.cons_append, List.find?_cons_of_neg _ (by simp [hw])]
    exact ih v rest (fun u hu => h u (List.mem_cons_of_mem w hu)) hv

/-- Every index in the single-field loop's invoked-method list points at a
rule of the list that was not condition-skipped in this pass. -/
theorem validateFieldRulesFrom_methodCalls_not_skipped {σ φ : Type} (st : σ) (f : φ)
    (fid : String) :
    ∀ (rs : List (Rule σ φ)) (i j : Nat), j ∈ (validateFieldRulesFrom st f fid i rs).2 →
      ∃ k, ∃ hk : k < rs.length, j = i + k ∧ (rs.get ⟨k, hk⟩).skipped st = false := by
  intro rs
  induction rs with
  | nil => intro i j h; simp [validateFieldRulesFrom] at h
  | cons r rs ih =>
    intro i j h
    by_cases hs : r.skipped st = true
    · simp only [validateFieldRulesFrom, if_pos hs] at h
      obtain ⟨k, hk, hj, hr⟩ := ih (i + 1) j h
      exact ⟨k + 1, Nat.succ_lt_succ hk, by omega, hr⟩
    · by_cases hm : r.method f st = true
      · simp only [validateFieldRulesFrom, if_neg hs, if_pos hm, List.mem_cons] at h
        rcases h with rfl | h
        · exact ⟨0, Nat.succ_pos _, by omega, by simpa using Bool.eq_false_iff.mpr hs⟩
        · obtain ⟨k, hk, hj, hr⟩ := ih (i + 1) j h
          exact ⟨k + 1, Nat.succ_lt_succ hk, by omega, hr⟩
      · simp only [validateFieldRulesFrom, if_neg hs, if_neg hm, List.mem_singleton] at h
        subst h
        exact ⟨0, Nat.succ_pos _, by omega, by simpa using Bool.eq_false_iff.mpr hs⟩

/-- The action trace of the single-field loop does not depend on the
starting index (the index only feeds the instrumentation). -/
theorem validateFieldRulesFrom_actions_index {σ φ : Type} (st : σ) (f : φ) (fid : String) :
    ∀ (rs : List (Rule σ φ)) (i j : Nat),
      (validateFieldRulesFrom st f fid i rs).1 = (validateFieldRulesFrom st f fid j rs).1 := by
  intro rs
  induction rs with
  | nil => intro i j; rfl
  | cons r rs ih =>
    intro i j
    by_cases hs : r.skipped st = true
    · simp only [validateFieldRulesFrom, if_pos hs]
      exact ih (i + 1) (j + 1)
    · by_cases hm : r.method f st = true
      · simp only [validateFieldRulesFrom, if_neg hs, if_pos hm]
        rw [ih (i + 1) (j + 1)]
      · simp only [validateFieldRulesFrom, if_neg hs, if_neg hm]

/-- Dropping a condition-skipped rule from anywhere in the list does not
change the single-field loop's action trace: the skipped rule shows and
removes no hint, and evaluation proceeds to the next rule. -/
theorem validateFieldRulesFrom_actions_drop_skipped {σ φ : Type} (st : σ) (f : φ)
    (fid : String) (r : Rule σ φ) (hr : r.skipped st = true) :
    ∀ (l₁ l₂ : List (Rule σ φ)) (i : Nat),
      (validateFieldRulesFrom st f fid i (l₁ ++ r :: l₂)).1
        = (validateFieldRulesFrom st f fid i (l₁ ++ l₂)).1 := by
  intro l₁
  induction l₁ with
  | nil =>
    intro l₂ i
    simp only [List.nil_append, validateFieldRulesFrom, if_pos hr]
    exact validateFieldRulesFrom_actions_index st f fid l₂ (i + 1) i
  | cons p l₁ ih =>
    intro l₂ i
    by_cases hp : p.skipped st = true
    · simp only [List.cons_append, validateFieldRulesFrom, if_pos hp]
      exact ih l₂ (i + 1)
    · by_cases hm : p.method f st = true
      · simp only [List.cons_append, validateFieldRulesFrom, if_neg hp, if_pos hm]
        exact congrArg
          (fun l => FieldAction.showValid fid :: FieldAction.removeHint fid :: l)
          (ih l₂ (i + 1))
      · simp only [List.cons_append, validateFieldRulesFrom, if_neg hp, if_neg hm]

/-! ### The claims -/

/-- C1: full-form evaluation short-circuits per field — when the rules of a
validator split as `pre ++ r :: post` with every rule of `pre` skipped or
passing and `r` un-skipped and failing, and the field's identifier occurs in
no other validator, then the result holds exactly one error record for that
field, carrying `r`'s message, and no rule past `r`'s index has its
predicate invoked in that pass. -/
theorem C1_first_failure_short_circuit {σ φ : Type} (st : σ) (es : List ErrorRecord)
    (l₀ l₁ : List (Validator σ φ)) (v : Validator σ φ)
    (pre : List (Rule σ φ)) (r : Rule σ φ) (post : List (Rule σ φ))
    (hrules : v.rules = pre ++ r :: post)
    (hothers : ∀ w ∈ l₀ ++ l₁, w.fieldId ≠ v.fieldId)
    (hpre : ∀ p ∈ pre, p.skipped st = true ∨ p.method v.field st = true)
    (hskip : r.skipped st = false) (hfail : r.method v.field st = false) :
    ((validateForm { validators := l₀ ++ v :: l₁, errors := es } st).1.errors.filter
        (fun e => e.fieldId == v.fieldId))
      = [{ fieldId := v.fieldId, message := r.message }]
    ∧ ∀ j ∈ (evalRules st v).methodCalls, j ≤ pre.length := by
  have hff := evalRulesFrom_firstFail st v.field v.fieldId pre r post hpre hskip hfail 0
  have herr : (evalRules st v).error
      = some { fieldId := v.fieldId, message := r.message } := by
    show (evalRulesFrom st v.field v.fieldId 0 v.rules).error = _
    rw [hrules]
    exact hff.1
  have hl₀ : ∀ w ∈ l₀, w.fieldId ≠ v.fieldId :=
    fun w hw => hothers w (List.mem_append_left _ hw)
  have hl₁ : ∀ w ∈ l₁, w.fieldId ≠ v.fieldId :=
    fun w hw => hothers w (List.mem_append_right _ hw)
  constructor
  · show ((formErrors st (l₀ ++ v :: l₁)).filter (fun e => e.fieldId == v.fieldId)) = _
    rw [formErrors_append, formErrors_cons, herr, List.filter_append, List.filter_append,
      formErrors_filter_of_ne st v.fieldId l₀ hl₀, formErrors_filter_of_ne st v.fieldId l₁ hl₁]
    simp
  · intro j hj
    have hj2 : j ∈ (evalRulesFrom st v.field v.fieldId 0 (pre ++ r :: post)).methodCalls := by
      have hj3 : j ∈ (evalRulesFrom st v.field v.fieldId 0 v.rules).methodCalls := hj
      rwa [hrules] at hj3
    have := hff.2 j hj2
    omega

/-- C1 witness: a single always-failing one-rule validator produces exactly
its own error record. -/
theorem C1_first_failure_short_circuit_witness :
    ((validateForm { validators := [failValidator "f" "m"], errors := [] } ()).1.errors.filter
        (fun e => e.fieldId == (failValidator "f" "m").fieldId))
      = [{ fieldId := (failValidator "f" "m").fieldId, message := (failRule "m").message }] :=
  (C1_first_failure_short_circuit () [] [] [] (failValidator "f" "m") [] (failRule "m") []
    rfl (by simp) (by simp) rfl rfl).1

/-- C2: condition gating, in both evaluation modes — every invoked
predicate, in the full-form loop and in the single-field loop alike,
belongs to a rule whose condition (if any) returned true in this pass; and
dropping any condition-skipped rule from the list changes neither the
full-form error produced nor the single-field action trace (the skipped
rule contributes no error and no hint; evaluation proceeds to the next
rule). -/
theorem C2_condition_gating {σ φ : Type} (st : σ) (f : φ) (fid : String)
    (rs : List (Rule σ φ)) :
    (∀ j ∈ (evalRulesFrom st f fid 0 rs).methodCalls,
        ∃ hj : j < rs.length, ∀ c, (rs.get ⟨j, hj⟩).condition = some c → c st = true)
    ∧ (∀ j ∈ (validateFieldRulesFrom st f fid 0 rs).2,
        ∃ hj : j < rs.length, ∀ c, (rs.get ⟨j, hj⟩).condition = some c → c st = true)
    ∧ (∀ (l₁ : List (Rule σ φ)) (r : Rule σ φ) (l₂ : List (Rule σ φ)),
        rs = l₁ ++ r :: l₂ → r.skipped st = true →
          (evalRulesFrom st f fid 0 rs).error = (evalRulesFrom st f fid 0 (l₁ ++ l₂)).error
          ∧ (validateFieldRulesFrom st f fid 0 rs).1
            = (validateFieldRulesFrom st f fid 0 (l₁ ++ l₂)).1) := by
  refine ⟨?_, ?_, ?_⟩
  · intro j hj
    obtain ⟨k, hk, hjk, hsk⟩ := evalRulesFrom_methodCalls_not_skipped st f fid rs 0 j hj
    have hj0 : j = k := by omega
    subst hj0
    exact ⟨hk, skipped_false_condition _ st hsk⟩
  · intro j hj
    obtain ⟨k, hk, hjk, hsk⟩ := validateFieldRulesFrom_methodCalls_not_skipped st f fid rs 0 j hj
    have hj0 : j = k := by omega
    subst hj0
    exact ⟨hk, skipped_false_condition _ st hsk⟩
  · intro l₁ r l₂ hsplit hr
    subst hsplit
    exact ⟨evalRulesFrom_error_drop_skipped st f fid r hr l₁ l₂ 0,
      validateFieldRulesFrom_actions_drop_skipped st f fid r hr l₁ l₂ 0⟩

/-- C3: `validateForm` returns true exactly when the produced error list is
empty, and the errors' field identifiers are a subsequence of the
validators' identifiers in registration order. -/
theorem C3_validateForm_result_shape {σ φ : Type} (fv : FormValidatorState σ φ) (st : σ) :
    ((validateForm fv st).2 = true ↔ (validateForm fv st).1.errors = [])
    ∧ List.Sublist (((validateForm fv st).1.errors).map (fun e => e.fieldId))
        (fv.validators.map (fun v => v.fieldId)) := by
  constructor
  · show ((formErrors st fv.validators).length == 0) = true
        ↔ formErrors st fv.validators = []
    simp [List.length_eq_zero]
  · exact formErrors_map_fieldId_sublist st fv.validators

/-- C4: a validator whose every rule is condition-skipped in a pass yields
no error and invokes no predicate; in particular the cc-num validator, for
any live state whose payment type is not credit-card (any card value,
including the empty string), has all three conditions false and reports no
error. -/
theorem C4_condition_skipped_field_valid :
    (∀ (σ φ : Type) (st : σ) (v : Validator σ φ),
        (∀ r ∈ v.rules, r.skipped st = true) →
          evalRules st v = { error := none, methodCalls := [] })
    ∧ (∀ st : RegFormState, st.payment ≠ "credit-card" →
        (∀ r ∈ ccNumRules, ∃ c, r.condition = some c ∧ c st = false)
        ∧ evalRules st { fieldId := "cc-num", rules := ccNumRules,
                         field := regFormElements "cc-num" }
          = { error := none, methodCalls := [] }) := by
  constructor
  · intro σ φ st v h
    exact evalRulesFrom_all_skipped st v.field v.fieldId v.rules 0 h
  · intro st hpay
    have hcond : creditCardSelected st = false := beq_eq_false_iff_ne.mpr hpay
    constructor
    · intro r hr
      simp only [ccNumRules, List.mem_cons, List.not_mem_nil, or_false] at hr
      rcases hr with rfl | rfl | rfl <;> exact ⟨creditCardSelected, rfl, hcond⟩
    · apply evalRulesFrom_all_skipped
      intro r hr
      simp only [ccNumRules, List.mem_cons, List.not_mem_nil, or_false] at hr
      rcases hr with rfl | rfl | rfl <;> simp [Rule.skipped, hcond]

/-- C5: `validateField` on an identifier with no registered validator only
signals the console warning — no hint is shown or removed, no rule's
predicate runs, and the page's hint state for every field is untouched. -/
theorem C5_unknown_field_safe {σ φ : Type} (fv : FormValidatorState σ φ) (st : σ)
    (fid : String) (h : findValidator fv fid = none) :
    validateField fv st fid = ([FieldAction.warnNotFound fid], [])
    ∧ ∀ hints : List (String × String),
        applyActions hints (validateField fv st fid).1 = hints := by
  have h1 : validateField fv st fid = ([FieldAction.warnNotFound fid], []) := by
    unfold validateField
    rw [h]
  refine ⟨h1, fun hints => ?_⟩
  rw [h1]
  rfl

/-- C5 witness: the registration form has no validator for
"undefined-field"; the call only warns. -/
theorem C5_unknown_field_safe_witness :
    validateField regFormValidator emailTestState "undefined-field"
      = ([FieldAction.warnNotFound "undefined-field"], []) :=
  (C5_unknown_field_safe regFormValidator emailTestState "undefined-field" rfl).1

/-- C6 counterexample: for email value `"a.b@@c.com"` the reported message
is NOT that of the "at symbol should only appear once" rule (the first
`@` at index 3 sits after the first `.` at index 1, so the at-before-dot
rule fails first). -/
theorem C6_scenarioC_counterexample :
    ((validateForm regFormValidator emailTestState).1.errors.filter
        (fun e => e.fieldId == "email"))
      ≠ [{ fieldId := "email", message := "The 'at' symbol should only appear once." }] := by
  decide

/-- C6 (amended): for the email field with value `"a.b@@c.com"`, evaluation
reports exactly one error for that field, whose message is that of the
"at symbol must be before the dot symbol" rule; the at-appears-once and
format-regex rules are never invoked (only rule indices 0 to 4 run). -/
theorem C6_scenarioC_amended :
    ((validateForm regFormValidator emailTestState).1.errors.filter
        (fun e => e.fieldId == "email"))
      = [{ fieldId := "email", message := "The 'at' symbol must be before the 'dot' symbol." }]
    ∧ (validateForm regFormValidator emailTestState).1.errors
      = [{ fieldId := "email", message := "The 'at' symbol must be before the 'dot' symbol." }]
    ∧ (evalRules emailTestState { fieldId := "email", rules := emailRules,
                                  field := regFormElements "email" }).methodCalls
      = [0, 1, 2, 3, 4] := by
  decide

/-- C7: registration always appends (accepting duplicates and empty rule
lists, never failing), duplicate registration yields two validators for one
identifier, lookup returns only the first match, and "not registered"
(`none`) is distinguished from "registered with zero rules" (`some`). -/
theorem C7_registry_semantics {σ φ : Type} (fv : FormValidatorState σ φ)
    (form : String → φ) (id : String) (r₁ r₂ : List (Rule σ φ))
    (hfresh : ∀ w ∈ fv.validators, w.fieldId ≠ id) :
    (addValidator fv form id r₁).validators
        = fv.validators ++ [{ fieldId := id, rules := r₁, field := form id }]
    ∧ (addValidator (addValidator fv form id r₁) form id r₂).validators
        = fv.validators ++ [{ fieldId := id, rules := r₁, field := form id },
            { fieldId := id, rules := r₂, field := form id }]
    ∧ ((addValidator (addValidator fv form id r₁) form id r₂).validators.countP
          (fun w => w.fieldId == id))
        = (fv.validators.countP (fun w => w.fieldId == id)) + 2
    ∧ findValidator (addValidator (addValidator fv form id r₁) form id r₂) id
        = some { fieldId := id, rules := r₁, field := form id }
    ∧ findValidator { validators := ([] : List (Validator σ φ)), errors := [] } id = none := by
  have happ : (addValidator (addValidator fv form id r₁) form id r₂).validators
      = fv.validators ++ ({ fieldId := id, rules := r₁, field := form id }
          :: [{ fieldId := id, rules := r₂, field := form id }]) := by
    show (fv.validators ++ [{ fieldId := id, rules := r₁, field := form id }])
        ++ [{ fieldId := id, rules := r₂, field := form id }] = _
    rw [List.append_assoc]
    rfl
  refine ⟨rfl, happ, ?_, ?_, rfl⟩
  · rw [happ, List.countP_append]
    simp
  · show (addValidator (addValidator fv form id r₁) form id r₂).validators.find?
        (fun w => w.fieldId == id) = _
    rw [happ]
    exact find?_validators_first id fv.validators _ _ hfresh rfl

/-- C7 witness: registering "x" twice on an empty registry — first with zero
rules — lookup returns the first (zero-rule) validator, distinguishable from
the `none` of an unregistered field. -/
theorem C7_registry_semantics_witness :
    findValidator
        (addValidator
          (addValidator { validators := ([] : List (Validator Unit String)), errors := [] }
            (fun s => s) "x" [])
          (fun s => s) "x" [demoRule]) "x"
      = some { fieldId := "x", rules := ([] : List (Rule Unit String)), field := "x" } :=
  (C7_registry_semantics { validators := [], errors := [] } (fun s => s) "x" [] [demoRule]
    (by simp)).2.2.2.1

/-- C8: the error list is rebuilt from scratch each pass — evaluating, then
evaluating again in a (possibly changed) state, gives exactly the result of
a single evaluation in the new state; nothing of the prior pass persists. -/
theorem C8_supersession {σ φ : Type} (fv : FormValidatorState σ φ) (st₁ st₂ : σ) :
    validateForm (validateForm fv st₁).1 st₂ = validateForm fv st₂ := rfl

/-- C9: a full-form pass leaves the Registry untouched — the validator list
(each entry's identifier, rules and field binding) is identical after
`validateForm`. -/
theorem C9_registry_unchanged {σ φ : Type} (fv : FormValidatorState σ φ) (st : σ) :
    (validateForm fv st).1.validators = fv.validators := rfl

/-- C10: with a duplicated identifier, full-form evaluation evaluates every
validator entry in registration order (so the error list can carry one
record per duplicate, all with that identifier), while single-field
evaluation consults only the first matching validator and ignores the
later duplicate entirely. -/
theorem C10_duplicate_fieldIds {σ φ : Type} (st : σ) (es : List ErrorRecord)
    (l₀ l₁ l₂ : List (Validator σ φ)) (v₁ v₂ : Validator σ φ) (id : String)
    (h₀ : ∀ w ∈ l₀, w.fieldId ≠ id) (h₁ : v₁.fieldId = id) (h₂ : v₂.fieldId = id) :
    formErrors st (l₀ ++ v₁ :: (l₁ ++ v₂ :: l₂))
      = formErrors st l₀ ++ (evalRules st v₁).error.toList ++ formErrors st l₁
          ++ (evalRules st v₂).error.toList ++ formErrors st l₂
    ∧ (∀ e ∈ (evalRules st v₁).error.toList ++ (evalRules st v₂).error.toList,
        e.fieldId = id)
    ∧ validateField { validators := l₀ ++ v₁ :: (l₁ ++ v₂ :: l₂), errors := es } st id
        = validateFieldRulesFrom st v₁.field id 0 v₁.rules := by
  refine ⟨?_, ?_, ?_⟩
  · rw [formErrors_append, formErrors_cons, formErrors_append, formErrors_cons]
    simp [List.append_assoc]
  · intro e he
    rcases List.mem_append.mp he with he | he
    · cases h : (evalRules st v₁).error with
      | none => simp [h] at he
      | some e1 =>
        simp only [h, Option.toList_some, List.mem_singleton] at he
        subst he
        rw [evalRulesFrom_error_fieldId st v₁.field v₁.fieldId v₁.rules 0 e h]
        exact h₁
    · cases h : (evalRules st v₂).error with
      | none => simp [h] at he
      | some e2 =>
        simp only [h, Option.toList_some, List.mem_singleton] at he
        subst he
        rw [evalRulesFrom_error_fieldId st v₂.field v₂.fieldId v₂.rules 0 e h]
        exact h₂
  · have hfind : findValidator
        { validators := l₀ ++ v₁ :: (l₁ ++ v₂ :: l₂), errors := es } id = some v₁ := by
      show (l₀ ++ v₁ :: (l₁ ++ v₂ :: l₂)).find? (fun w => w.fieldId == id) = some v₁
      exact find?_validators_first id l₀ v₁ (l₁ ++ v₂ :: l₂) h₀ h₁
    unfold validateField
    rw [hfind]

/-- C10 witness: registering "x" twice with always-failing rules, the
full-form pass yields two error records for "x", one per duplicate. -/
theorem C10_duplicate_fieldIds_witness :
    formErrors () [failValidator "x" "m1", failValidator "x" "m2"]
      = [{ fieldId := "x", message := "m1" }, { fieldId := "x", message := "m2" }] := by
  have h := (C10_duplicate_fieldIds () [] [] [] [] (failValidator "x" "m1")
    (failValidator "x" "m2") "x" (by simp) rfl rfl).1
  exact h.trans (by decide)

end ConfReg
